import Mathlib

/-!
Shallow embedding of the keyboard-to-MIDI event mapper of
src/scripts/keyboard_to_midi.py.  Python module-level mutable globals
(octave_shift, velocity, pitch_bend, pressed_notes) become an explicit
SessionState record threaded through the handlers; each outbound
mido.Message becomes a value of the Msg type collected in a list; the
boolean a pynput release callback returns to stop the listener becomes the
Bool component of on_release.
-/

/-- The key_to_note dictionary of keyboard_to_midi.py: white keys on the
home row, black keys on the row above.  The entry with Char.ofNat 39 is
the apostrophe key. -/
def key_to_note : List (Char × Int) :=
  [('a', 60), ('s', 62), ('d', 64), ('f', 65), ('g', 67), ('h', 69), ('j', 71),
   ('k', 72), ('l', 74), (';', 76), (Char.ofNat 39, 77),
   ('w', 61), ('e', 63), ('t', 66), ('y', 68), ('u', 70), ('o', 73), ('p', 75)]

/-- Python min of key_to_note.values, as used in the octave-down guard. -/
def min_note : Int := ((key_to_note.map Prod.snd).min?).getD 0

/-- Python max of key_to_note.values, as used in the octave-up guard. -/
def max_note : Int := ((key_to_note.map Prod.snd).max?).getD 0

/-- The mutable session state of keyboard_to_midi.py: the module globals
octave_shift, velocity, pitch_bend and the set pressed_notes. -/
structure SessionState where
  octave_shift : Int
  velocity : Int
  pitch_bend : Int
  pressed_notes : Finset Int
deriving DecidableEq

/-- Initial values: octave_shift = 0, velocity = 100, pitch_bend = 0,
pressed_notes empty. -/
def initState : SessionState := SessionState.mk 0 100 0 ∅

/-- An outbound MIDI message sent on the virtual port. -/
inductive Msg where
  | note_on (note velocity : Int)
  | note_off (note velocity : Int)
  | pitchwheel (pitch : Int)
deriving DecidableEq

/-- A raw key event payload: a character key, the escape key, or another
special key without a char attribute. -/
inductive Key where
  | char (c : Char)
  | esc
  | other
deriving DecidableEq

/-- adjust_note_with_octave of keyboard_to_midi.py: add octave_shift times
12 semitones and clamp to the valid MIDI range 0..127. -/
def adjust_note_with_octave (octave_shift note : Int) : Int :=
  max 0 (min 127 (note + octave_shift * 12))

/-- The branch of on_press for a key present in key_to_note: if the
adjusted note is not already pressed, send note_on and add it, else do
nothing. -/
def press_note (s : SessionState) (base : Int) : SessionState × List Msg :=
  let note := adjust_note_with_octave s.octave_shift base
  if note ∈ s.pressed_notes then (s, [])
  else
    (SessionState.mk s.octave_shift s.velocity s.pitch_bend (insert note s.pressed_notes),
     [Msg.note_on note s.velocity])

/-- The elif chain of on_press for the control keys z x c v b n. -/
def press_control (s : SessionState) (k : Char) : SessionState × List Msg :=
  if k = 'z' then
    if (s.octave_shift - 1) * 12 + min_note ≥ 0 then
      (SessionState.mk (s.octave_shift - 1) s.velocity s.pitch_bend s.pressed_notes, [])
    else (s, [])
  else if k = 'x' then
    if (s.octave_shift + 1) * 12 + max_note ≤ 127 then
      (SessionState.mk (s.octave_shift + 1) s.velocity s.pitch_bend s.pressed_notes, [])
    else (s, [])
  else if k = 'c' then
    (SessionState.mk s.octave_shift (max 0 (s.velocity - 10)) s.pitch_bend s.pressed_notes, [])
  else if k = 'v' then
    (SessionState.mk s.octave_shift (min 127 (s.velocity + 10)) s.pitch_bend s.pressed_notes, [])
  else if k = 'b' then
    (SessionState.mk s.octave_shift s.velocity (max (-8192) (s.pitch_bend - 512)) s.pressed_notes,
     [Msg.pitchwheel (max (-8192) (s.pitch_bend - 512))])
  else if k = 'n' then
    (SessionState.mk s.octave_shift s.velocity (min 8191 (s.pitch_bend + 512)) s.pressed_notes,
     [Msg.pitchwheel (min 8191 (s.pitch_bend + 512))])
  else (s, [])

/-- Dispatch of on_press on the lowercased character: note keys first,
then the control keys. -/
def on_press_char (s : SessionState) (k : Char) : SessionState × List Msg :=
  match key_to_note.lookup k with
  | some base => press_note s base
  | none => press_control s k

/-- on_press of keyboard_to_midi.py.  A key without a char attribute
raises AttributeError, which the handler swallows, so it is a no-op. -/
def on_press (s : SessionState) (key : Key) : SessionState × List Msg :=
  match key with
  | Key.char c => on_press_char s c.toLower
  | Key.esc => (s, [])
  | Key.other => (s, [])

/-- The branch of on_release for a key present in key_to_note: if the
adjusted note is pressed, send note_off with the current velocity and
remove it, else do nothing. -/
def release_note (s : SessionState) (base : Int) : SessionState × List Msg :=
  let note := adjust_note_with_octave s.octave_shift base
  if note ∈ s.pressed_notes then
    (SessionState.mk s.octave_shift s.velocity s.pitch_bend (s.pressed_notes.erase note),
     [Msg.note_off note s.velocity])
  else (s, [])

/-- on_release of keyboard_to_midi.py.  The Bool is the value the pynput
callback returns: false (stop the listener) only on escape, after sending
note_off for every note still in pressed_notes; the set itself is not
cleared, the process simply exits. -/
def on_release (s : SessionState) (key : Key) : SessionState × List Msg × Bool :=
  match key with
  | Key.char c =>
    match key_to_note.lookup c.toLower with
    | some base =>
      let r := release_note s base
      (r.1, r.2, true)
    | none => (s, [], true)
  | Key.esc =>
    (s, (s.pressed_notes.sort (fun a b => a ≤ b)).map (fun note => Msg.note_off note s.velocity),
     false)
  | Key.other => (s, [], true)

/-- A session input event: key down or key up. -/
inductive Event where
  | down (k : Key)
  | up (k : Key)
deriving DecidableEq

/-- One listener callback: key down runs on_press (never stops the
listener), key up runs on_release. -/
def step (s : SessionState) : Event → SessionState × List Msg × Bool
  | Event.down k => ((on_press s k).1, (on_press s k).2, true)
  | Event.up k => on_release s k

/-- Run a list of events through the listener, collecting the messages in
order and stopping early when a callback returns false. -/
def runP (s : SessionState) : List Event → SessionState × List Msg
  | [] => (s, [])
  | e :: es =>
    let r := step s e
    if r.2.2 then
      let r2 := runP r.1 es
      (r2.1, r.2.1 ++ r2.2)
    else (r.1, r.2.1)

/-- Apply on_press with the same key n times, collecting the messages. -/
def pressN (k : Key) : Nat → SessionState → SessionState × List Msg
  | 0, s => (s, [])
  | Nat.succ m, s =>
    let r := on_press s k
    let r2 := pressN k m r.1
    (r2.1, r.2 ++ r2.2)

/-- The four velocity and pitch-bend control key-down events. -/
def isVelPB (e : Event) : Bool :=
  e = Event.down (Key.char 'c') ∨ e = Event.down (Key.char 'v') ∨
  e = Event.down (Key.char 'b') ∨ e = Event.down (Key.char 'n')

/-- The octave-range invariant: every mapped base note stays inside 0..127
after the octave shift is applied. -/
def OctaveInv (s : SessionState) : Prop :=
  0 ≤ min_note + s.octave_shift * 12 ∧ max_note + s.octave_shift * 12 ≤ 127

/-- States reachable from the initial state through the two handlers. -/
inductive Reachable : SessionState → Prop where
  | init : Reachable initState
  | press (k : Key) (s : SessionState) : Reachable s → Reachable (on_press s k).1
  | release (k : Key) (s : SessionState) : Reachable s → Reachable (on_release s k).1

/-- The state after one octave-up press from the initial state. -/
def s_oct1 : SessionState := (on_press initState (Key.char 'x')).1

/-- The state after two octave-up presses from the initial state. -/
def s_oct2 : SessionState := (on_press s_oct1 (Key.char 'x')).1

/-- The state after three octave-up presses from the initial state. -/
def s_oct3 : SessionState := (on_press s_oct2 (Key.char 'x')).1

/-- The state after four octave-up presses from the initial state, where a
further octave-up would push the highest mapped note past 127. -/
def s_oct4 : SessionState := (on_press s_oct3 (Key.char 'x')).1

theorem min_note_eq : min_note = 60 := by decide

theorem max_note_eq : max_note = 77 := by decide

example : on_press initState (Key.char 'a') =
    (SessionState.mk 0 100 0 {60}, [Msg.note_on 60 100]) := by decide

theorem on_press_char_note (s : SessionState) (c : Char) (base : Int)
    (hb : key_to_note.lookup c.toLower = some base) :
    on_press s (Key.char c) = press_note s base := by
  show on_press_char s c.toLower = press_note s base
  unfold on_press_char
  rw [hb]

theorem on_release_char_note (s : SessionState) (c : Char) (base : Int)
    (hb : key_to_note.lookup c.toLower = some base) :
    on_release s (Key.char c) = ((release_note s base).1, (release_note s base).2, true) := by
  simp only [on_release, hb]

theorem press_note_not_mem (s : SessionState) (base : Int)
    (h : adjust_note_with_octave s.octave_shift base ∉ s.pressed_notes) :
    press_note s base =
      (SessionState.mk s.octave_shift s.velocity s.pitch_bend
        (insert (adjust_note_with_octave s.octave_shift base) s.pressed_notes),
       [Msg.note_on (adjust_note_with_octave s.octave_shift base) s.velocity]) := by
  unfold press_note
  simp [h]

theorem press_note_mem (s : SessionState) (base : Int)
    (h : adjust_note_with_octave s.octave_shift base ∈ s.pressed_notes) :
    press_note s base = (s, []) := by
  unfold press_note
  simp [h]

theorem release_note_mem (s : SessionState) (base : Int)
    (h : adjust_note_with_octave s.octave_shift base ∈ s.pressed_notes) :
    release_note s base =
      (SessionState.mk s.octave_shift s.velocity s.pitch_bend
        (s.pressed_notes.erase (adjust_note_with_octave s.octave_shift base)),
       [Msg.note_off (adjust_note_with_octave s.octave_shift base) s.velocity]) := by
  unfold release_note
  simp [h]

theorem release_note_not_mem (s : SessionState) (base : Int)
    (h : adjust_note_with_octave s.octave_shift base ∉ s.pressed_notes) :
    release_note s base = (s, []) := by
  unfold release_note
  simp [h]

theorem press_z_eq (s : SessionState) :
    on_press s (Key.char 'z') =
      if (s.octave_shift - 1) * 12 + min_note ≥ 0 then
        (SessionState.mk (s.octave_shift - 1) s.velocity s.pitch_bend s.pressed_notes, [])
      else (s, []) := rfl

theorem press_x_eq (s : SessionState) :
    on_press s (Key.char 'x') =
      if (s.octave_shift + 1) * 12 + max_note ≤ 127 then
        (SessionState.mk (s.octave_shift + 1) s.velocity s.pitch_bend s.pressed_notes, [])
      else (s, []) := rfl

theorem press_c_eq (s : SessionState) :
    on_press s (Key.char 'c') =
      (SessionState.mk s.octave_shift (max 0 (s.velocity - 10)) s.pitch_bend s.pressed_notes,
       []) := rfl

theorem press_v_eq (s : SessionState) :
    on_press s (Key.char 'v') =
      (SessionState.mk s.octave_shift (min 127 (s.velocity + 10)) s.pitch_bend s.pressed_notes,
       []) := rfl

theorem press_b_eq (s : SessionState) :
    on_press s (Key.char 'b') =
      (SessionState.mk s.octave_shift s.velocity (max (-8192) (s.pitch_bend - 512)) s.pressed_notes,
       [Msg.pitchwheel (max (-8192) (s.pitch_bend - 512))]) := rfl

theorem press_n_eq (s : SessionState) :
    on_press s (Key.char 'n') =
      (SessionState.mk s.octave_shift s.velocity (min 8191 (s.pitch_bend + 512)) s.pressed_notes,
       [Msg.pitchwheel (min 8191 (s.pitch_bend + 512))]) := rfl

theorem on_press_char_control (s : SessionState) (c : Char)
    (hl : key_to_note.lookup c.toLower = none) :
    on_press s (Key.char c) = press_control s c.toLower := by
  show on_press_char s c.toLower = press_control s c.toLower
  unfold on_press_char
  rw [hl]

theorem on_release_fst_eq (s : SessionState) (k : Key) :
    (on_release s k).1.octave_shift = s.octave_shift ∧
    (on_release s k).1.velocity = s.velocity ∧
    (on_release s k).1.pitch_bend = s.pitch_bend := by
  rcases k with c | _ | _
  · rcases hl : key_to_note.lookup c.toLower with _ | base
    · simp only [on_release, hl]
      exact ⟨trivial, trivial, trivial⟩
    · rw [on_release_char_note s c base hl]
      by_cases hmem : adjust_note_with_octave s.octave_shift base ∈ s.pressed_notes
      · rw [release_note_mem s base hmem]
        exact ⟨rfl, rfl, rfl⟩
      · rw [release_note_not_mem s base hmem]
        exact ⟨rfl, rfl, rfl⟩
  · exact ⟨rfl, rfl, rfl⟩
  · exact ⟨rfl, rfl, rfl⟩

theorem octaveInv_press (s : SessionState) (k : Key) (h : OctaveInv s) :
    OctaveInv (on_press s k).1 := by
  rcases k with c | _ | _
  · rcases hl : key_to_note.lookup c.toLower with _ | base
    · rw [on_press_char_control s c hl]
      unfold press_control
      unfold OctaveInv at h ⊢
      rw [min_note_eq, max_note_eq] at h ⊢
      split_ifs <;> dsimp only <;> omega
    · rw [on_press_char_note s c base hl]
      by_cases hmem : adjust_note_with_octave s.octave_shift base ∈ s.pressed_notes
      · rw [press_note_mem s base hmem]
        exact h
      · rw [press_note_not_mem s base hmem]
        exact h
  · exact h
  · exact h

theorem octaveInv_release (s : SessionState) (k : Key) (h : OctaveInv s) :
    OctaveInv (on_release s k).1 := by
  unfold OctaveInv at h ⊢
  rw [(on_release_fst_eq s k).1]
  exact h

theorem reachable_octaveInv (s : SessionState) (h : Reachable s) : OctaveInv s := by
  induction h with
  | init => exact ⟨by decide, by decide⟩
  | press k t ht ih => exact octaveInv_press t k ih
  | release k t ht ih => exact octaveInv_release t k ih

theorem velPB_step (s : SessionState) (e : Event) (h : isVelPB e = true) :
    (step s e).1.octave_shift = s.octave_shift ∧
    (step s e).1.pressed_notes = s.pressed_notes ∧
    (step s e).2.2 = true := by
  unfold isVelPB at h
  simp only [decide_eq_true_eq] at h
  rcases h with h | h | h | h <;> subst h <;> exact ⟨rfl, rfl, rfl⟩

theorem velPB_runP (es : List Event) :
    ∀ s : SessionState, (∀ e ∈ es, isVelPB e = true) →
      (runP s es).1.octave_shift = s.octave_shift ∧
      (runP s es).1.pressed_notes = s.pressed_notes := by
  induction es with
  | nil => exact fun s _ => ⟨rfl, rfl⟩
  | cons e es ih =>
    intro s h
    have he := h e (List.mem_cons_self e es)
    have hes : ∀ x ∈ es, isVelPB x = true := fun x hx => h x (List.mem_cons_of_mem e hx)
    obtain ⟨h1, h2, h3⟩ := velPB_step s e he
    obtain ⟨ih1, ih2⟩ := ih ((step s e).1) hes
    simp only [runP, h3, if_true]
    exact ⟨ih1.trans h1, ih2.trans h2⟩

theorem pressN_mem (c : Char) (base : Int) (hb : key_to_note.lookup c.toLower = some base)
    (m : Nat) :
    ∀ s : SessionState, adjust_note_with_octave s.octave_shift base ∈ s.pressed_notes →
      pressN (Key.char c) m s = (s, []) := by
  induction m with
  | zero => exact fun s _ => rfl
  | succ m ih =>
    intro s h
    have hp : on_press s (Key.char c) = (s, []) := by
      rw [on_press_char_note s c base hb]
      exact press_note_mem s base h
    simp only [pressN, hp]
    rw [ih s h]
    rfl

/-- C1: for every key in key_to_note and every session state in which the
adjusted note is not currently pressed, the key-down followed immediately
by the key-up leaves pressed_notes unchanged and emits exactly one note_on
then one note_off, both for the same adjusted note. -/
theorem C1_down_up_roundtrip (s : SessionState) (c : Char) (base : Int)
    (hb : key_to_note.lookup c.toLower = some base)
    (hn : adjust_note_with_octave s.octave_shift base ∉ s.pressed_notes) :
    (on_release (on_press s (Key.char c)).1 (Key.char c)).1.pressed_notes = s.pressed_notes ∧
    (on_press s (Key.char c)).2 ++ (on_release (on_press s (Key.char c)).1 (Key.char c)).2.1 =
      [Msg.note_on (adjust_note_with_octave s.octave_shift base) s.velocity,
       Msg.note_off (adjust_note_with_octave s.octave_shift base) s.velocity] := by
  have hp : on_press s (Key.char c) =
      (SessionState.mk s.octave_shift s.velocity s.pitch_bend
        (insert (adjust_note_with_octave s.octave_shift base) s.pressed_notes),
       [Msg.note_on (adjust_note_with_octave s.octave_shift base) s.velocity]) := by
    rw [on_press_char_note s c base hb]
    exact press_note_not_mem s base hn
  rw [hp, on_release_char_note _ c base hb,
    release_note_mem _ base (Finset.mem_insert_self _ _)]
  refine ⟨?_, rfl⟩
  show (insert (adjust_note_with_octave s.octave_shift base) s.pressed_notes).erase
      (adjust_note_with_octave s.octave_shift base) = s.pressed_notes
  exact Finset.erase_insert hn

theorem C1_down_up_roundtrip_witness :
    key_to_note.lookup 'a'.toLower = some 60 ∧
    adjust_note_with_octave initState.octave_shift 60 ∉ initState.pressed_notes ∧
    ((on_release (on_press initState (Key.char 'a')).1 (Key.char 'a')).1.pressed_notes =
        initState.pressed_notes ∧
      (on_press initState (Key.char 'a')).2 ++
          (on_release (on_press initState (Key.char 'a')).1 (Key.char 'a')).2.1 =
        [Msg.note_on (adjust_note_with_octave initState.octave_shift 60) initState.velocity,
         Msg.note_off (adjust_note_with_octave initState.octave_shift 60) initState.velocity]) :=
  ⟨by decide, by decide, C1_down_up_roundtrip initState 'a' 60 (by decide) (by decide)⟩

/-- C2: pressing a mapped key any positive number of times with no
intervening release emits exactly one note_on; the first press adds the
adjusted note to pressed_notes and every further press is a no-op. -/
theorem C2_repeat_down_idempotent (s : SessionState) (c : Char) (base : Int) (m : Nat)
    (hb : key_to_note.lookup c.toLower = some base)
    (hn : adjust_note_with_octave s.octave_shift base ∉ s.pressed_notes)
    (hm : 1 ≤ m) :
    pressN (Key.char c) m s =
      (SessionState.mk s.octave_shift s.velocity s.pitch_bend
        (insert (adjust_note_with_octave s.octave_shift base) s.pressed_notes),
       [Msg.note_on (adjust_note_with_octave s.octave_shift base) s.velocity]) := by
  obtain ⟨m', rfl⟩ : ∃ m', m = m'.succ := ⟨m - 1, by omega⟩
  have hp : on_press s (Key.char c) =
      (SessionState.mk s.octave_shift s.velocity s.pitch_bend
        (insert (adjust_note_with_octave s.octave_shift base) s.pressed_notes),
       [Msg.note_on (adjust_note_with_octave s.octave_shift base) s.velocity]) := by
    rw [on_press_char_note s c base hb]
    exact press_note_not_mem s base hn
  simp only [pressN, hp]
  rw [pressN_mem c base hb m' _ (Finset.mem_insert_self _ _)]
  rfl

theorem C2_repeat_down_idempotent_witness :
    key_to_note.lookup 'a'.toLower = some 60 ∧
    adjust_note_with_octave initState.octave_shift 60 ∉ initState.pressed_notes ∧
    1 ≤ 3 ∧
    pressN (Key.char 'a') 3 initState =
      (SessionState.mk initState.octave_shift initState.velocity initState.pitch_bend
        (insert (adjust_note_with_octave initState.octave_shift 60) initState.pressed_notes),
       [Msg.note_on (adjust_note_with_octave initState.octave_shift 60) initState.velocity]) :=
  ⟨by decide, by decide, by decide,
    C2_repeat_down_idempotent initState 'a' 60 3 (by decide) (by decide) (by decide)⟩

/-- C7: an octave change rejected at either boundary emits no message and
leaves the whole session state unchanged. -/
theorem C7_octave_reject_noop (s : SessionState) :
    ((s.octave_shift - 1) * 12 + min_note < 0 → on_press s (Key.char 'z') = (s, [])) ∧
    ((s.octave_shift + 1) * 12 + max_note > 127 → on_press s (Key.char 'x') = (s, [])) := by
  constructor
  · intro h
    rw [min_note_eq] at h
    rw [press_z_eq, min_note_eq, if_neg (by omega)]
  · intro h
    rw [max_note_eq] at h
    rw [press_x_eq, max_note_eq, if_neg (by omega)]

theorem C7_octave_reject_noop_witness :
    (((SessionState.mk (-5) 100 0 ∅).octave_shift - 1) * 12 + min_note < 0 →
      on_press (SessionState.mk (-5) 100 0 ∅) (Key.char 'z') =
        (SessionState.mk (-5) 100 0 ∅, [])) ∧
    (((SessionState.mk (-5) 100 0 ∅).octave_shift + 1) * 12 + max_note > 127 →
      on_press (SessionState.mk (-5) 100 0 ∅) (Key.char 'x') =
        (SessionState.mk (-5) 100 0 ∅, [])) :=
  C7_octave_reject_noop (SessionState.mk (-5) 100 0 ∅)

/-- C8: velocity steps are plus or minus 10 clamped to 0..127 with no
message, pitch-bend steps are plus or minus 512 clamped to -8192..8191 with
a pitchwheel message, and twenty velocity-up or pitch-bend-down presses
from the default state stay inside the bounds. -/
theorem C8_clamped_adjustments :
    (pressN (Key.char 'v') 20 initState).1.velocity ≤ 127 ∧
    -8192 ≤ (pressN (Key.char 'b') 20 initState).1.pitch_bend ∧
    (∀ s : SessionState, on_press s (Key.char 'c') =
      (SessionState.mk s.octave_shift (max 0 (s.velocity - 10)) s.pitch_bend s.pressed_notes,
       [])) ∧
    (∀ s : SessionState, on_press s (Key.char 'v') =
      (SessionState.mk s.octave_shift (min 127 (s.velocity + 10)) s.pitch_bend s.pressed_notes,
       [])) ∧
    (∀ s : SessionState, on_press s (Key.char 'b') =
      (SessionState.mk s.octave_shift s.velocity (max (-8192) (s.pitch_bend - 512))
        s.pressed_notes,
       [Msg.pitchwheel (max (-8192) (s.pitch_bend - 512))])) ∧
    (∀ s : SessionState, on_press s (Key.char 'n') =
      (SessionState.mk s.octave_shift s.velocity (min 8191 (s.pitch_bend + 512))
        s.pressed_notes,
       [Msg.pitchwheel (min 8191 (s.pitch_bend + 512))])) :=
  ⟨by decide, by decide, press_c_eq, press_v_eq, press_b_eq, press_n_eq⟩

/-- C9: from the default state, octave-up succeeds and sets octave_shift to
one, and a following press of the a key emits note_on 72 100, one octave
above the default 60. -/
theorem C9_octave_up_scenario :
    (on_press initState (Key.char 'x')).1.octave_shift = 1 ∧
    (on_press initState (Key.char 'x')).2 = [] ∧
    (on_press (on_press initState (Key.char 'x')).1 (Key.char 'a')).2 =
      [Msg.note_on 72 100] := by decide

theorem adjust_bounds (oct note : Int) :
    0 ≤ adjust_note_with_octave oct note ∧ adjust_note_with_octave oct note ≤ 127 := by
  unfold adjust_note_with_octave
  exact ⟨le_max_left 0 _, max_le (by norm_num) (min_le_left _ _)⟩

theorem on_press_note_on_le (s : SessionState) (k : Key) (note v : Int)
    (hm : Msg.note_on note v ∈ (on_press s k).2) : 0 ≤ note ∧ note ≤ 127 := by
  rcases k with c | _ | _
  · rcases hl : key_to_note.lookup c.toLower with _ | base
    · rw [on_press_char_control s c hl] at hm
      unfold press_control at hm
      split_ifs at hm <;> simp at hm
    · rw [on_press_char_note s c base hl] at hm
      by_cases hmem : adjust_note_with_octave s.octave_shift base ∈ s.pressed_notes
      · rw [press_note_mem s base hmem] at hm
        simp at hm
      · rw [press_note_not_mem s base hmem] at hm
        simp at hm
        obtain ⟨rfl, rfl⟩ := hm
        exact adjust_bounds s.octave_shift base
  · simp [on_press] at hm
  · simp [on_press] at hm

theorem reach_oct4 : Reachable s_oct4 :=
  Reachable.press (Key.char 'x') s_oct3
    (Reachable.press (Key.char 'x') s_oct2
      (Reachable.press (Key.char 'x') s_oct1
        (Reachable.press (Key.char 'x') initState Reachable.init)))

/-- C4: from any reachable state, octave-up stops changing the state once a
further increment would push the highest mapped base note past 127,
octave-down stops once the lowest would drop below 0, and every note_on any
key-down emits carries a note number of at most 127. -/
theorem C4_octave_boundary (s : SessionState) (h : Reachable s) :
    ((s.octave_shift + 1) * 12 + max_note > 127 → on_press s (Key.char 'x') = (s, [])) ∧
    ((s.octave_shift - 1) * 12 + min_note < 0 → on_press s (Key.char 'z') = (s, [])) ∧
    (∀ (k : Key) (note v : Int), Msg.note_on note v ∈ (on_press s k).2 → note ≤ 127) := by
  refine ⟨?_, ?_, ?_⟩
  · intro hgt
    rw [max_note_eq] at hgt
    rw [press_x_eq, max_note_eq, if_neg (by omega)]
  · intro hlt
    rw [min_note_eq] at hlt
    rw [press_z_eq, min_note_eq, if_neg (by omega)]
  · intro k note v hm
    exact (on_press_note_on_le s k note v hm).2

theorem C4_octave_boundary_witness :
    ((s_oct4.octave_shift + 1) * 12 + max_note > 127 →
      on_press s_oct4 (Key.char 'x') = (s_oct4, [])) ∧
    ((s_oct4.octave_shift - 1) * 12 + min_note < 0 →
      on_press s_oct4 (Key.char 'z') = (s_oct4, [])) ∧
    (∀ (k : Key) (note v : Int), Msg.note_on note v ∈ (on_press s_oct4 k).2 → note ≤ 127) :=
  C4_octave_boundary s_oct4 reach_oct4

/-- C3 as stated is false on the code: an octave change between the press
and the release changes the adjusted note, so the release is a no-op and
the pressed note stays orphaned.  Concretely, press a, press x for octave
up, release a: no note_off is emitted and note 60 is still pressed. -/
theorem C3_counterexample :
    (on_release (on_press (on_press initState (Key.char 'a')).1 (Key.char 'x')).1
        (Key.char 'a')).2.1 = [] ∧
    (60 : Int) ∈ (on_release (on_press (on_press initState (Key.char 'a')).1
        (Key.char 'x')).1 (Key.char 'a')).1.pressed_notes := by decide

/-- C3 amended: when only velocity and pitch-bend control events intervene
between the key-down and the key-up, the release removes the pressed note
from pressed_notes and emits exactly one note_off for it, at the velocity
current at release time. -/
theorem C3_amended_no_orphan (s : SessionState) (c : Char) (base : Int) (es : List Event)
    (hb : key_to_note.lookup c.toLower = some base)
    (hes : ∀ e ∈ es, isVelPB e = true) :
    adjust_note_with_octave s.octave_shift base ∉
      (on_release (runP (on_press s (Key.char c)).1 es).1 (Key.char c)).1.pressed_notes ∧
    (on_release (runP (on_press s (Key.char c)).1 es).1 (Key.char c)).1.pressed_notes =
      s.pressed_notes.erase (adjust_note_with_octave s.octave_shift base) ∧
    (on_release (runP (on_press s (Key.char c)).1 es).1 (Key.char c)).2.1 =
      [Msg.note_off (adjust_note_with_octave s.octave_shift base)
        (runP (on_press s (Key.char c)).1 es).1.velocity] := by
  obtain ⟨hr1, hr2⟩ := velPB_runP es ((on_press s (Key.char c)).1) hes
  have hoct1 : (on_press s (Key.char c)).1.octave_shift = s.octave_shift := by
    rw [on_press_char_note s c base hb]
    by_cases hmem : adjust_note_with_octave s.octave_shift base ∈ s.pressed_notes
    · rw [press_note_mem s base hmem]
    · rw [press_note_not_mem s base hmem]
  have hmem1 : adjust_note_with_octave s.octave_shift base ∈
      (on_press s (Key.char c)).1.pressed_notes := by
    rw [on_press_char_note s c base hb]
    by_cases hmem : adjust_note_with_octave s.octave_shift base ∈ s.pressed_notes
    · rw [press_note_mem s base hmem]
      exact hmem
    · rw [press_note_not_mem s base hmem]
      exact Finset.mem_insert_self _ _
  have hpn1 : (on_press s (Key.char c)).1.pressed_notes.erase
        (adjust_note_with_octave s.octave_shift base) =
      s.pressed_notes.erase (adjust_note_with_octave s.octave_shift base) := by
    rw [on_press_char_note s c base hb]
    by_cases hmem : adjust_note_with_octave s.octave_shift base ∈ s.pressed_notes
    · rw [press_note_mem s base hmem]
    · rw [press_note_not_mem s base hmem]
      exact Finset.erase_insert_eq_erase _ _
  have hoct2 : (runP (on_press s (Key.char c)).1 es).1.octave_shift = s.octave_shift :=
    hr1.trans hoct1
  have hmem2 : adjust_note_with_octave
        (runP (on_press s (Key.char c)).1 es).1.octave_shift base ∈
      (runP (on_press s (Key.char c)).1 es).1.pressed_notes := by
    rw [hoct2, hr2]
    exact hmem1
  rw [on_release_char_note _ c base hb, release_note_mem _ base hmem2, hoct2]
  refine ⟨Finset.not_mem_erase _ _, ?_, rfl⟩
  show (runP (on_press s (Key.char c)).1 es).1.pressed_notes.erase
      (adjust_note_with_octave s.octave_shift base) = _
  rw [hr2]
  exact hpn1

theorem C3_amended_no_orphan_witness :
    key_to_note.lookup 'a'.toLower = some 60 ∧
    (∀ e ∈ [Event.down (Key.char 'v')], isVelPB e = true) ∧
    (adjust_note_with_octave initState.octave_shift 60 ∉
      (on_release (runP (on_press initState (Key.char 'a')).1
          [Event.down (Key.char 'v')]).1 (Key.char 'a')).1.pressed_notes ∧
    (on_release (runP (on_press initState (Key.char 'a')).1
        [Event.down (Key.char 'v')]).1 (Key.char 'a')).1.pressed_notes =
      initState.pressed_notes.erase (adjust_note_with_octave initState.octave_shift 60) ∧
    (on_release (runP (on_press initState (Key.char 'a')).1
        [Event.down (Key.char 'v')]).1 (Key.char 'a')).2.1 =
      [Msg.note_off (adjust_note_with_octave initState.octave_shift 60)
        (runP (on_press initState (Key.char 'a')).1 [Event.down (Key.char 'v')]).1.velocity]) :=
  ⟨by decide, by decide,
    C3_amended_no_orphan initState 'a' 60 [Event.down (Key.char 'v')] (by decide) (by decide)⟩

/-- C5: the escape release emits exactly one note_off, at the current
session velocity, for each note still pressed, visiting each held note
exactly once, and signals termination; no other release event signals
termination. -/
theorem C5_quit_cleanup (s : SessionState) :
    (∀ n : Int, ((on_release s Key.esc).2.1).count (Msg.note_off n s.velocity) =
      if n ∈ s.pressed_notes then 1 else 0) ∧
    (∀ m ∈ (on_release s Key.esc).2.1, ∃ n ∈ s.pressed_notes,
      m = Msg.note_off n s.velocity) ∧
    (on_release s Key.esc).2.2 = false ∧
    (∀ k : Key, k ≠ Key.esc → (on_release s k).2.2 = true) := by
  have hinj : Function.Injective (fun note : Int => Msg.note_off note s.velocity) := by
    intro a b hab
    simpa using hab
  refine ⟨?_, ?_, rfl, ?_⟩
  · intro n
    show ((s.pressed_notes.sort (fun a b => a ≤ b)).map
        (fun note => Msg.note_off note s.velocity)).count (Msg.note_off n s.velocity) = _
    have hc := List.count_map_of_injective (s.pressed_notes.sort (fun a b => a ≤ b))
      (fun note : Int => Msg.note_off note s.velocity) hinj n
    rw [hc, List.count_eq_of_nodup (Finset.sort_nodup _ _)]
    simp [Finset.mem_sort]
  · intro m hm
    have hm2 : m ∈ (s.pressed_notes.sort (fun a b => a ≤ b)).map
        (fun note => Msg.note_off note s.velocity) := hm
    simp only [List.mem_map] at hm2
    obtain ⟨n, hn, rfl⟩ := hm2
    exact ⟨n, (Finset.mem_sort _).mp hn, rfl⟩
  · intro k hk
    rcases k with c | _ | _
    · rcases hl : key_to_note.lookup c.toLower with _ | base
      · simp [on_release, hl]
      · rw [on_release_char_note s c base hl]
    · exact absurd rfl hk
    · rfl

theorem C5_quit_cleanup_witness :
    (∀ n : Int,
      ((on_release (SessionState.mk 0 100 0 {60, 64, 67}) Key.esc).2.1).count
          (Msg.note_off n (SessionState.mk 0 100 0 {60, 64, 67}).velocity) =
        if n ∈ (SessionState.mk 0 100 0 {60, 64, 67}).pressed_notes then 1 else 0) ∧
    (∀ m ∈ (on_release (SessionState.mk 0 100 0 {60, 64, 67}) Key.esc).2.1,
      ∃ n ∈ (SessionState.mk 0 100 0 {60, 64, 67}).pressed_notes,
        m = Msg.note_off n (SessionState.mk 0 100 0 {60, 64, 67}).velocity) ∧
    (on_release (SessionState.mk 0 100 0 {60, 64, 67}) Key.esc).2.2 = false ∧
    (∀ k : Key, k ≠ Key.esc →
      (on_release (SessionState.mk 0 100 0 {60, 64, 67}) k).2.2 = true) :=
  C5_quit_cleanup (SessionState.mk 0 100 0 {60, 64, 67})

/-- C6: a note_off carries the session velocity current at release time,
not the one captured at press time: press a mapped key, raise the velocity,
release the key, and the note_off carries the raised velocity while the
note_on carried the original one. -/
theorem C6_note_off_current_velocity (s : SessionState) (c : Char) (base : Int)
    (hb : key_to_note.lookup c.toLower = some base)
    (hn : adjust_note_with_octave s.octave_shift base ∉ s.pressed_notes) :
    (on_press s (Key.char c)).2 =
      [Msg.note_on (adjust_note_with_octave s.octave_shift base) s.velocity] ∧
    (on_release (on_press (on_press s (Key.char c)).1 (Key.char 'v')).1 (Key.char c)).2.1 =
      [Msg.note_off (adjust_note_with_octave s.octave_shift base)
        (min 127 (s.velocity + 10))] := by
  have hp : on_press s (Key.char c) =
      (SessionState.mk s.octave_shift s.velocity s.pitch_bend
        (insert (adjust_note_with_octave s.octave_shift base) s.pressed_notes),
       [Msg.note_on (adjust_note_with_octave s.octave_shift base) s.velocity]) := by
    rw [on_press_char_note s c base hb]
    exact press_note_not_mem s base hn
  constructor
  · rw [hp]
  · rw [hp, press_v_eq, on_release_char_note _ c base hb,
      release_note_mem _ base (Finset.mem_insert_self _ _)]

theorem C6_note_off_current_velocity_witness :
    key_to_note.lookup 'a'.toLower = some 60 ∧
    adjust_note_with_octave initState.octave_shift 60 ∉ initState.pressed_notes ∧
    ((on_press initState (Key.char 'a')).2 =
      [Msg.note_on (adjust_note_with_octave initState.octave_shift 60) initState.velocity] ∧
    (on_release (on_press (on_press initState (Key.char 'a')).1 (Key.char 'v')).1
        (Key.char 'a')).2.1 =
      [Msg.note_off (adjust_note_with_octave initState.octave_shift 60)
        (min 127 (initState.velocity + 10))]) :=
  ⟨by decide, by decide, C6_note_off_current_velocity initState 'a' 60 (by decide) (by decide)⟩

/-- C10: in every reachable state the octave shift keeps every mapped base
note inside 0..127, so the clamp in adjust_note_with_octave is never
active: the adjusted note is exactly base plus octave_shift times 12. -/
theorem C10_clamp_inactive (s : SessionState) (h : Reachable s) :
    0 ≤ min_note + s.octave_shift * 12 ∧ max_note + s.octave_shift * 12 ≤ 127 ∧
    ∀ base ∈ key_to_note.map Prod.snd,
      adjust_note_with_octave s.octave_shift base = base + s.octave_shift * 12 := by
  obtain ⟨h1, h2⟩ := reachable_octaveInv s h
  refine ⟨h1, h2, ?_⟩
  rw [min_note_eq] at h1
  rw [max_note_eq] at h2
  have hrange : ∀ b ∈ key_to_note.map Prod.snd, 60 ≤ b ∧ b ≤ 77 := by decide
  intro base hbm
  obtain ⟨hl1, hl2⟩ := hrange base hbm
  unfold adjust_note_with_octave
  rw [min_eq_right (by omega), max_eq_right (by omega)]

theorem C10_clamp_inactive_witness :
    0 ≤ min_note + initState.octave_shift * 12 ∧
    max_note + initState.octave_shift * 12 ≤ 127 ∧
    ∀ base ∈ key_to_note.map Prod.snd,
      adjust_note_with_octave initState.octave_shift base =
        base + initState.octave_shift * 12 :=
  C10_clamp_inactive initState Reachable.init
